import Mathlib

/-!
Verification development for the `radar` chat-message orchestrator.

The definitions below are a shallow embedding of the control-flow core of the
repository: the per-user debounce scheduler with generation counters
(`src/app/main.py`), message consolidation (`src/app/utils/parsers.py`),
the bounded tool-orchestration loop with loop detection
(`src/app/services/base/base_chatbot.py`), and the interactive menu /
clarification state machine (`src/app/services/chatbot_service.py`).

Python-level conventions used throughout the embedding:
* Python's `sorted` is a stable sort; it is modelled by the stable insertion
  sort `stableSort` below.
* Python string comparison is lexicographic on code points; it is modelled by
  `strLe` on `Char.toNat`.
* Python `str.strip`, `str.join` and `int(...)` are modelled by `pyStrip`,
  `pyJoin` and `pyInt?`.
* Python truthiness of optional strings (`if s:`) is modelled by `truthyStr?`.
* Monetary amounts (Python floats) are modelled as rationals; the code only
  compares and sums them, which is order-faithful.
-/

namespace Radar


/-! ### Python string comparison (lexicographic on code points) -/

/-- Strict lexicographic comparison of character lists by code point,
matching Python's `<` on strings. -/
def strLtAux : List Char → List Char → Bool
  | [], [] => false
  | [], _ :: _ => true
  | _ :: _, [] => false
  | a :: as, b :: bs =>
    if a.toNat < b.toNat then true
    else if b.toNat < a.toNat then false
    else strLtAux as bs

/-- Python's `s <= t` on strings: not `t < s`. -/
def strLe (s t : String) : Bool := !(strLtAux t.data s.data)

/-! ### Python's stable `sorted` as insertion sort -/

/-- Insert `a` before the first element `b` with `le a b`; together with
`stableSort` this is a stable sort, matching Python's `sorted`. -/
def insertSorted (le : α → α → Bool) (a : α) : List α → List α
  | [] => [a]
  | b :: l => if le a b then a :: b :: l else b :: insertSorted le a l

/-- Stable sort (model of Python's `sorted(xs, key=...)`, which is stable). -/
def stableSort (le : α → α → Bool) : List α → List α
  | [] => []
  | a :: l => insertSorted le a (stableSort le l)

/-! ### Python string helpers -/

/-- Whitespace characters stripped by Python's `str.strip()` (ASCII subset). -/
def isPySpace (c : Char) : Bool := c = ' ' || c = '\t' || c = '\n' || c = '\r'

/-- Python's `s.strip()`. -/
def pyStrip (s : String) : String :=
  ⟨((s.data.dropWhile isPySpace).reverse.dropWhile isPySpace).reverse⟩

/-- Python's `sep.join(xs)`. -/
def pyJoin (sep : String) : List String → String
  | [] => ""
  | [x] => x
  | x :: xs => x ++ sep ++ pyJoin sep xs

/-- Python truthiness of an optional string (`if s:`): `None` and `""` are
falsy. -/
def truthyStr? : Option String → Bool
  | some s => s ≠ ""
  | none => false

/-- Python's `int(s)` (success cases: optional surrounding whitespace, optional
sign, at least one ASCII digit). -/
def pyInt? (s : String) : Option Int :=
  let digitsVal : List Char → Nat := fun ds => ds.foldl (fun n c => n * 10 + (c.toNat - 48)) 0
  let allDigits : List Char → Bool := fun ds => ds.all fun c => '0' ≤ c && c ≤ '9'
  match (pyStrip s).data with
  | [] => none
  | '-' :: ds => if ds ≠ [] ∧ allDigits ds then some (-(digitsVal ds : Int)) else none
  | '+' :: ds => if ds ≠ [] ∧ allDigits ds then some (digitsVal ds : Int) else none
  | ds => if allDigits ds then some (digitsVal ds : Int) else none

/-! ### Pending (temporary) messages and consolidation

Embeds `_consolidate_temp_messages` from `src/app/utils/parsers.py` (the copy
in `src/app/main.py` lines 307-322 is identical up to the shared sort key).
Messages are modelled as records with total string fields; the Python code
reads them from dicts with defaults (`m.get("content", "")` etc.). -/

/-- One row of the durable temp-message store (a PendingMessage). -/
structure TempMessage where
  role : String
  content : String
  created_at : String
  id : String
deriving DecidableEq

/-- Sort key used by `sorted(messages, key=lambda m: m.get("created_at", ""))`. -/
def tempLe (a b : TempMessage) : Bool := strLe a.created_at b.created_at

/-- Result of consolidation (`ConsolidatedMessage`). -/
structure ConsolidatedMessage where
  role : String
  content : String
  created_at : String
deriving DecidableEq

/-- `_consolidate_temp_messages` (`src/app/utils/parsers.py` lines 7-23):
stable-sort by `created_at`, keep truthy contents, join with `" "` and strip;
role and created_at come from `ordered[0]`. -/
def consolidate_temp_messages (messages : List TempMessage) : Option ConsolidatedMessage :=
  if messages = [] then none
  else
    let ordered := stableSort tempLe messages
    let texts := (ordered.filter fun m => m.content ≠ "").map (·.content)
    if texts = [] then none
    else
      match ordered.head? with
      | none => none
      | some m0 =>
        some ⟨m0.role, pyStrip (pyJoin " " texts), m0.created_at⟩

/-! ### Debounce scheduler (src/app/main.py lines 159-190)

`schedule_user_processing` increments the per-user generation counter,
requests cancellation of the currently pending `_debounce_runner` task and
stores a fresh task bound to the new generation. `_debounce_runner` sleeps
`DEBOUNCE_SECONDS`, then compares its captured generation with the stored one
and only processes when they agree.

The model below replays one user's burst: `ts` lists the arrival times of the
inbound messages (arrival `i`, zero-based, creates generation `i + 1`).
Cancellation is cooperative: requesting it may or may not take effect before
the sleeping timer wakes, so the delivery of each cancel request is an
adversarial parameter `cancelOk`.  A timer that does wake runs the generation
comparison; ties between an arrival and a fire at the same instant are
resolved arrivals-first. -/

structure DebounceRun where
  D : Nat
  ts : List Nat
  cancelOk : Nat → Bool

/-- Value of the user's generation counter visible at time `t`: one increment
per arrival at or before `t` (`_generation_counter[user_id]`, also the
`generation` field stored in `pending_tasks`). -/
def arrivalsUpTo (ts : List Nat) (t : Nat) : Nat :=
  (ts.filter fun a => decide (a ≤ t)).length

/-- Whether the cancel request issued by arrival `i + 1` actually terminates
timer `i` during its sleep: the next arrival must come no later than the fire
time, and the cooperative cancellation must be delivered (`cancelOk i`). -/
def timerKilled (r : DebounceRun) (i : Nat) : Bool :=
  match r.ts.get? i, r.ts.get? (i + 1) with
  | some ti, some tn => decide (tn ≤ ti + r.D) && r.cancelOk i
  | _, _ => false

/-- Timer `i` fires productively: it wakes at `ts i + D` and the generation it
captured (`i + 1`) still equals the user's current generation, so
`process_debounced_messages` runs (`_debounce_runner`, lines 179-182). -/
def timerProductive (r : DebounceRun) (i : Nat) : Bool :=
  match r.ts.get? i with
  | none => false
  | some ti => !timerKilled r i && decide (arrivalsUpTo r.ts (ti + r.D) = i + 1)

/-- Concrete burst for the debounce witness: three messages at times 0, 5, 10
with the default delay `D = 15`, all cancel requests delivered. -/
def burstRunEx : DebounceRun := ⟨15, [0, 5, 10], fun _ => true⟩

/-- Two-message burst (arrivals 0 and 5, delay 15) used by the C1
counterexample. -/
def burstRunEx2 : DebounceRun := ⟨15, [0, 5], fun _ => true⟩

/-- The three pending messages recorded for the burst above. -/
def burstMsgsEx : List TempMessage :=
  [⟨"user", "oi", "2024-01-01T00:00:00", "a1"⟩,
   ⟨"user", "quero", "2024-01-01T00:00:05", "a2"⟩,
   ⟨"user", "areia", "2024-01-01T00:00:10", "a3"⟩]

/-- Two out-of-order pending messages for the C8 witness. -/
def consolidateMsgsEx : List TempMessage :=
  [⟨"user", "b", "t2", "i2"⟩, ⟨"user", "a", "t1", "i1"⟩]

/-! ### Deletion of pending messages after processing

Embeds the effect structure of `process_debounced_messages`
(`src/app/main.py` lines 193-254) and
`BaseChatbotService._cleanup_and_save`
(`src/app/services/base/base_chatbot.py` lines 215-232).

In `main.py`, reply generation (`openai_service.generate_response` or the
catalog path) runs before any logging or deletion and its exceptions
propagate, aborting the run; `log_message` swallows storage errors
internally; `delete_temp_messages` runs after the two logging attempts.  In
`base_chatbot.py`, `_cleanup_and_save` deletes the batch first and logs
afterwards, and its `_log_message` does not catch exceptions. -/

/-- Externally visible effects on the durable store and transport. -/
inductive Effect where
  | logHistory (role content : String)
  | deleteTemp (ids : List String)
  | sendText (text : String)
  | presencePaused
deriving DecidableEq

/-- Outcome parameters of the collaborators for one debounced run. -/
structure PipelineEnv where
  genOk : Bool
  logOk : Bool
  replyText : String

/-- `process_debounced_messages` (`src/app/main.py`): the list of effects
performed, and whether the coroutine completed without raising.  When
`genOk = false` the reply-generation step raises and the run aborts before
any logging or deletion.  When `logOk = false` the `save_message` calls fail
but `log_message` swallows the error, so no history row is written and the
run continues. -/
def process_debounced_messages (env : PipelineEnv) (temps : List TempMessage) :
    List Effect × Bool :=
  if temps = [] then ([], true)
  else
    let consolidated := consolidate_temp_messages temps
    if env.genOk = false then ([], false)
    else
      let logCons : List Effect :=
        match consolidated with
        | some c => if env.logOk then [.logHistory c.role c.content] else []
        | none => []
      let tempIds : List String :=
        match consolidated with
        | some _ => (temps.filter fun t => t.id ≠ "").map (·.id)
        | none => []
      let logReply : List Effect :=
        if env.logOk then [.logHistory "assistant" env.replyText] else []
      (logCons ++ logReply
        ++ [.deleteTemp tempIds, .sendText env.replyText, .presencePaused], true)

/-- `BaseChatbotService._cleanup_and_save`: deletes the batch first (when any
ids exist), then logs the consolidated turn and the assistant reply; a
failing `save_message` there raises after the deletion already happened. -/
def cleanup_and_save (logOk : Bool) (temps : List TempMessage)
    (consolidated : Option ConsolidatedMessage) (response_text : String) :
    List Effect × Bool :=
  let tempIds := (temps.filter fun t => t.id ≠ "").map (·.id)
  let delEffs : List Effect := if tempIds = [] then [] else [.deleteTemp tempIds]
  if logOk = false then (delEffs, false)
  else
    let consEffs : List Effect :=
      match consolidated with
      | some c => [.logHistory "user" c.content]
      | none => []
    (delEffs ++ consEffs ++ [.logHistory "assistant" response_text], true)

/-- Whether some pending message was actually deleted. -/
def deletesPending (effs : List Effect) : Bool :=
  effs.any fun e =>
    match e with
    | .deleteTemp ids => !ids.isEmpty
    | _ => false

/-- Whether the assistant reply was durably logged. -/
def logsReply (effs : List Effect) : Bool :=
  effs.any fun e =>
    match e with
    | .logHistory r _ => r == "assistant"
    | _ => false

/-! ### Tool-orchestration loop
(`BaseChatbotService._process_with_mcp`, `src/app/services/base/base_chatbot.py`
lines 105-192)

The AI provider is scripted by call index (`script n` is the response to the
`n`-th `chat_with_tools` call); tool execution is scripted by name and
arguments; `notifyOk n` tells whether the `n`-th out-of-band store
notification send succeeds (its failure is caught at the call site). -/

/-- One tool invocation requested by the model (arguments already parsed from
JSON into key/value pairs). -/
structure ToolCall where
  id : String
  name : String
  args : List (String × String)
deriving DecidableEq

/-- One provider response: final text and/or requested tool calls. -/
structure ProviderResponse where
  content : Option String
  tool_calls : List ToolCall
deriving DecidableEq

/-- Result of executing one tool via the MCP server. -/
structure ToolResult where
  success : Bool
  store_phone : Option String
  store_message : Option String
deriving DecidableEq

/-- `json.dumps(arguments, sort_keys=True)`: canonical rendering with keys
sorted ascending (JSON quoting omitted; the rendering is only ever compared
for equality). -/
def dumpsSorted (args : List (String × String)) : String :=
  pyJoin "," ((stableSort (fun a b => strLe a.1 b.1) args).map fun kv => kv.1 ++ ":" ++ kv.2)

/-- `call_signature = f"\x7btool_name\x7d:\x7bjson.dumps(arguments, sort_keys=True)\x7d"`. -/
def callSignature (name : String) (args : List (String × String)) : String :=
  name ++ ":" ++ dumpsSorted args

/-- `tool_call_history[-3:]`: the last three (or fewer) entries. -/
def lastThree (l : List String) : List String := l.drop (l.length - 3)

/-- Fixed fallback returned on loop detection. -/
def fallbackLoopMsg : String :=
  "Desculpe, encontrei um problema ao processar sua solicitação. Pode reformular?"

/-- Generic failure returned when `max_iterations` is exhausted. -/
def capExhaustedMsg : String :=
  "Desculpe, ocorreu um erro ao processar sua solicitação."

/-- Default when the model answers with empty content. -/
def emptyAnswerMsg : String := "Desculpe, não entendi."

/-- Python `x or default` on optional message content. -/
def pyOrElse (s : Option String) (d : String) : String :=
  match s with
  | some c => if c = "" then d else c
  | none => d

/-- Scripted collaborators for one orchestration turn. -/
structure McpEnv where
  script : Nat → ProviderResponse
  execTool : String → List (String × String) → ToolResult
  notifyOk : Nat → Bool

/-- Mutable state of the loop: `tool_call_history` (each entry is appended
immediately before the tool is executed, so it is also the trace of executed
calls), the store notifications attempted (phone, message, success), and the
number of provider calls made. -/
structure LoopState where
  tool_call_history : List String
  notifies : List (String × String × Bool)
  calls : Nat
deriving DecidableEq

/-- Initial per-turn state (`tool_call_history = []`, `iteration = 0`). -/
def initLoopState : LoopState := ⟨[], [], 0⟩

/-- Execute one requested tool call: append its signature to the history,
run the tool, and for a successful `finalize_purchase` with contact data also
attempt the out-of-band store notification (whose failure is caught). -/
def execOneTool (env : McpEnv) (tc : ToolCall) (s : LoopState) : LoopState :=
  let sig := callSignature tc.name tc.args
  let s1 : LoopState := { s with tool_call_history := s.tool_call_history ++ [sig] }
  let result := env.execTool tc.name tc.args
  if tc.name = "finalize_purchase" ∧ result.success then
    if truthyStr? result.store_phone ∧ truthyStr? result.store_message then
      { s1 with
        notifies := s1.notifies
          ++ [(result.store_phone.getD "", result.store_message.getD "",
               env.notifyOk s1.notifies.length)] }
    else s1
  else s1

/-- The `for tool_call in assistant_message.tool_calls` body: abort with the
fixed fallback when the signature already occurs among the last 3 executed
calls, otherwise execute and continue. -/
def runTools (env : McpEnv) : List ToolCall → LoopState → Option String × LoopState
  | [], s => (none, s)
  | tc :: rest, s =>
    if callSignature tc.name tc.args ∈ lastThree s.tool_call_history then
      (some fallbackLoopMsg, s)
    else runTools env rest (execOneTool env tc s)

/-- The `while iteration < max_iterations` loop, by remaining fuel. -/
def mcpLoop (env : McpEnv) : Nat → LoopState → String × LoopState
  | 0, s => (capExhaustedMsg, s)
  | fuel + 1, s =>
    let resp := env.script s.calls
    let s1 : LoopState := { s with calls := s.calls + 1 }
    if resp.tool_calls = [] then (pyOrElse resp.content emptyAnswerMsg, s1)
    else
      match runTools env resp.tool_calls s1 with
      | (some msg, s2) => (msg, s2)
      | (none, s2) => mcpLoop env fuel s2

/-- `_process_with_mcp`: up to `max_iterations = 10` provider rounds. -/
def process_with_mcp (env : McpEnv) : String × LoopState :=
  mcpLoop env 10 initLoopState

/-- State with one previously executed `get_products` call for the C4 witness. -/
def loopDetectStateEx : LoopState :=
  ⟨[callSignature "get_products" [("query", "areia")]], [], 3⟩

/-- Scripted environment used by the loop-detection witnesses. -/
def quietEnvEx : McpEnv :=
  ⟨fun _ => ⟨none, []⟩, fun _ _ => ⟨true, none, none⟩, fun _ => true⟩

/-- The identical tool call requested repeatedly in the C5 scenario. -/
def repeatedCallEx : ToolCall := ⟨"c1", "get_products", [("query", "areia")]⟩

/-- Environment whose model requests the same tool call three times
consecutively in a single response. -/
def repeatEnvEx : McpEnv :=
  ⟨fun _ => ⟨none, [repeatedCallEx, repeatedCallEx, repeatedCallEx]⟩,
   fun _ _ => ⟨true, none, none⟩, fun _ => true⟩

/-- Two loop states agreeing on everything except the recorded success flags
of the store-notification attempts. -/
def sameButNotify (s s' : LoopState) : Prop :=
  s.tool_call_history = s'.tool_call_history
  ∧ s.calls = s'.calls
  ∧ s.notifies.map (fun x => (x.1, x.2.1)) = s'.notifies.map (fun x => (x.1, x.2.1))

/-! ### Interactive menu / clarification state machine
(`src/app/services/chatbot_service.py`)

`ConversationManager` keeps a per-user dict; `MessageHandler.
handle_interactive_option` dispatches on the stored awaiting flags in fixed
priority order.  Monetary totals are modelled as rationals; the handler
bodies that call the AI / catalog collaborators are modelled by their
dispatch outcome. -/

/-- One product row inside a store's saved budget. -/
structure StoreProduct where
  name : String
  price : ℚ
  unit_label : String
deriving DecidableEq

/-- Contact data of a store. -/
structure StoreInfo where
  name : String
  phone : Option String
deriving DecidableEq

/-- Value of `store_totals[store_name]`. -/
structure StoreData where
  products : List StoreProduct
  total : ℚ
  store_info : StoreInfo
deriving DecidableEq

/-- Per-user conversation state (the dict created by `get_user_state`;
fields absent from the default dict carry their falsy defaults). -/
structure UserState where
  store_totals : List (String × StoreData)
  awaiting_store_selection : Bool
  awaiting_purchase_confirmation : Option String
  selected_store_data : Option StoreData
  awaiting_clarification : Bool
deriving DecidableEq

/-- `sorted(state["store_totals"].items(), key=lambda x: x[1]["total"])` —
used by `_handle_finalize_purchase`, `_handle_best_price_details`,
`_handle_store_selection` and `format_all_stores_details`. -/
def sortedStores (totals : List (String × StoreData)) : List (String × StoreData) :=
  stableSort (fun a b => decide (a.2.total ≤ b.2.total)) totals

/-- The order in which `format_all_stores_details`
(`src/app/business/message_templates.py` lines 200-213) enumerates the
stores: ascending by total price (string rendering omitted). -/
def allStoresOrder (totals : List (String × StoreData)) : List String :=
  (sortedStores totals).map (·.1)

/-- Which interactive handler fires for an inbound text. -/
inductive InteractiveAction where
  | clarification (text : String)
  | storeSelection (text : String)
  | confirmFinalize
  | confirmCancel
  | confirmReprompt
  | menuFinalize
  | menuBestPrice
  | menuAllStores
  | menuReturn
  | passthrough
deriving DecidableEq

/-- Branch dispatch of `MessageHandler.handle_interactive_option` (lines
74-112): no stored state returns `None` (`passthrough`); otherwise the
branches are tried in the fixed priority order clarification → store
selection → purchase confirmation → top-level menu; the handler bodies are
modelled by their dispatch outcome. -/
def handle_interactive_option (conv : List (String × UserState))
    (user_id text : String) : InteractiveAction :=
  match conv.lookup user_id with
  | none => .passthrough
  | some st =>
    if st.awaiting_clarification then .clarification (pyStrip text)
    else if st.awaiting_store_selection then .storeSelection text
    else if truthyStr? st.awaiting_purchase_confirmation then
      if pyStrip text = "1" then .confirmFinalize
      else if pyStrip text = "0" then .confirmCancel
      else .confirmReprompt
    else if text = "1" then .menuFinalize
    else if text = "2" then .menuBestPrice
    else if text = "3" then .menuAllStores
    else if text = "0" then .menuReturn
    else .passthrough

/-- The four dispatch families of the state machine. -/
inductive BranchFam where
  | clar
  | store
  | confirm
  | menu
deriving DecidableEq

/-- Branch family selected by the stored awaiting flags alone, in the fixed
priority order of the source. -/
def branchOfState (st : UserState) : BranchFam :=
  if st.awaiting_clarification then .clar
  else if st.awaiting_store_selection then .store
  else if truthyStr? st.awaiting_purchase_confirmation then .confirm
  else .menu

/-- The family an action belongs to (`passthrough` is the menu family's
non-digit fall-through to the AI pipeline). -/
def famOfAction : InteractiveAction → BranchFam
  | .clarification _ => .clar
  | .storeSelection _ => .store
  | .confirmFinalize => .confirm
  | .confirmCancel => .confirm
  | .confirmReprompt => .confirm
  | _ => .menu

/-- Outcome of `_handle_store_selection`. -/
inductive SelectionOutcome where
  | backToMenu
  | selected (store : String × StoreData)
  | invalidChoice
  | notANumber
deriving DecidableEq

/-- `MessageHandler._handle_store_selection` (lines 191-220): `"0"` returns
to the menu; otherwise `int(selection) - 1` indexes the ascending-sorted
totals list, out-of-range yields the retry message, `ValueError` the
digits-only message.  (The state-expired guard is unreachable: the default
state dict always carries the `store_totals` key.) -/
def handle_store_selection (st : UserState) (selection : String) : SelectionOutcome :=
  if selection = "0" then .backToMenu
  else
    match pyInt? selection with
    | none => .notANumber
    | some v =>
      let idx := v - 1
      let ss := sortedStores st.store_totals
      if 0 ≤ idx ∧ idx < (ss.length : Int) then
        match ss.get? idx.toNat with
        | some pr => .selected pr
        | none => .invalidChoice
      else .invalidChoice

/-- Outcome of `_handle_finalize_purchase`. -/
inductive FinalizeOutcome where
  | finalized (store_name : Option String) (data : StoreData) (notified : Bool)
  | noStore
deriving DecidableEq

/-- `MessageHandler._handle_finalize_purchase` (lines 114-155): with a
previously selected store it is used together with the stored
`awaiting_purchase_confirmation` name, otherwise the cheapest store (head of
the ascending-sorted totals) is targeted; the message to the store is sent
only when a phone exists and the send succeeds (`notifyOk`), and a send
failure is caught, never changing the returned customer message. -/
def handle_finalize_purchase (st : UserState) (notifyOk : Bool) : FinalizeOutcome :=
  match st.selected_store_data with
  | some data =>
    .finalized st.awaiting_purchase_confirmation data
      (truthyStr? data.store_info.phone && notifyOk)
  | none =>
    match (sortedStores st.store_totals).head? with
    | none => .noStore
    | some pr => .finalized (some pr.1) pr.2 (truthyStr? pr.2.store_info.phone && notifyOk)

/-- Routing of `ChatbotService.process_message` (lines 693-722): an
interactive reply short-circuits the pipeline and is sent directly; a `None`
from the handler lets the message fall through to temp-message recording and
debounced AI processing.  (Every interactive handler body returns a
non-empty string, so Python's truthiness test on the reply coincides with the
handler having fired.) -/
inductive Route where
  | interactive (a : InteractiveAction)
  | debouncePipeline
deriving DecidableEq

/-- The route taken by `process_message` for an inbound text. -/
def process_message_route (conv : List (String × UserState))
    (user_id text : String) : Route :=
  match handle_interactive_option conv user_id (pyStrip text) with
  | .passthrough => .debouncePipeline
  | a => .interactive a

/-- A state awaiting clarification, used by the C6 witness. -/
def clarifyStateEx : UserState := ⟨[], false, none, none, true⟩

/-- A state with no pending sub-dialog, used by the C6 witness. -/
def menuStateEx : UserState := ⟨[], false, none, none, false⟩

/-- The A=100, B=90, C=120 example totals, in insertion order A, B, C. -/
def totalsABC : List (String × StoreData) :=
  [("A", ⟨[], 100, ⟨"A", some "5511111111"⟩⟩),
   ("B", ⟨[], 90, ⟨"B", some "5522222222"⟩⟩),
   ("C", ⟨[], 120, ⟨"C", some "5533333333"⟩⟩)]

/-- State holding the A/B/C totals with no store selected. -/
def stateABC : UserState := ⟨totalsABC, true, none, none, false⟩

theorem strLtAux_irrefl : ∀ l : List Char, strLtAux l l = false := by
  intro l
  induction l with
  | nil => rfl
  | cons a as ih => simp [strLtAux, ih]

theorem strLtAux_asymm : ∀ {l m : List Char}, strLtAux l m = true → strLtAux m l = false := by
  intro l
  induction l with
  | nil =>
    intro m h
    cases m with
    | nil => simpa [strLtAux] using h
    | cons b bs => simp [strLtAux]
  | cons a as ih =>
    intro m h
    cases m with
    | nil => simpa [strLtAux] using h
    | cons b bs =>
      by_cases hab : a.toNat < b.toNat
      · have hba : ¬ b.toNat < a.toNat := Nat.lt_asymm hab
        simp [strLtAux, hab, hba]
      · by_cases hba : b.toNat < a.toNat
        · simp [strLtAux, hab, hba] at h
        · simp [strLtAux, hab, hba] at h ⊢
          exact ih h

theorem strLtAux_trichotomy : ∀ l m : List Char,
    strLtAux l m = true ∨ strLtAux m l = true ∨ l = m := by
  intro l
  induction l with
  | nil =>
    intro m
    cases m with
    | nil => right; right; rfl
    | cons b bs => left; simp [strLtAux]
  | cons a as ih =>
    intro m
    cases m with
    | nil => right; left; simp [strLtAux]
    | cons b bs =>
      by_cases hab : a.toNat < b.toNat
      · left; simp [strLtAux, hab]
      · by_cases hba : b.toNat < a.toNat
        · right; left; simp [strLtAux, hba]
        · have hval : a.toNat = b.toNat := Nat.le_antisymm (Nat.not_lt.mp hba) (Nat.not_lt.mp hab)
          have hchar : a = b := Char.eq_of_val_eq (UInt32.toNat.inj hval)
          subst hchar
          rcases ih bs with h | h | h
          · left; simp [strLtAux, h]
          · right; left; simp [strLtAux, h]
          · right; right; simp [h]

theorem strLe_total (s t : String) : strLe s t = true ∨ strLe t s = true := by
  rcases strLtAux_trichotomy s.data t.data with h | h | h
  · left; simp [strLe, strLtAux_asymm h]
  · right; simp [strLe, strLtAux_asymm h]
  · left
    have : t.data = s.data := h.symm
    simp [strLe, this, strLtAux_irrefl]

theorem strLe_refl (s : String) : strLe s s = true := by
  simp [strLe, strLtAux_irrefl]

theorem strLtAux_trans : ∀ {l m n : List Char},
    strLtAux l m = true → strLtAux m n = true → strLtAux l n = true := by
  intro l
  induction l with
  | nil =>
    intro m n hlm hmn
    cases m with
    | nil => simpa [strLtAux] using hlm
    | cons b bs =>
      cases n with
      | nil => simpa [strLtAux] using hmn
      | cons c cs => simp [strLtAux]
  | cons a as ih =>
    intro m n hlm hmn
    cases m with
    | nil => simpa [strLtAux] using hlm
    | cons b bs =>
      cases n with
      | nil => simpa [strLtAux] using hmn
      | cons c cs =>
        by_cases hab : a.toNat < b.toNat
        · by_cases hbc : b.toNat < c.toNat
          · have hac : a.toNat < c.toNat := Nat.lt_trans hab hbc
            simp [strLtAux, hac]
          · by_cases hcb : c.toNat < b.toNat
            · simp [strLtAux, hbc, hcb] at hmn
            · have hbc' : b.toNat = c.toNat := Nat.le_antisymm (Nat.not_lt.mp hcb) (Nat.not_lt.mp hbc)
              have hac : a.toNat < c.toNat := hbc' ▸ hab
              simp [strLtAux, hac]
        · by_cases hba : b.toNat < a.toNat
          · simp [strLtAux, hab, hba] at hlm
          · have hab' : a.toNat = b.toNat := Nat.le_antisymm (Nat.not_lt.mp hba) (Nat.not_lt.mp hab)
            by_cases hbc : b.toNat < c.toNat
            · have hac : a.toNat < c.toNat := hab' ▸ hbc
              simp [strLtAux, hac]
            · by_cases hcb : c.toNat < b.toNat
              · simp [strLtAux, hbc, hcb] at hmn
              · have hbc' : b.toNat = c.toNat := Nat.le_antisymm (Nat.not_lt.mp hcb) (Nat.not_lt.mp hbc)
                have hac : ¬ a.toNat < c.toNat := by omega
                have hca : ¬ c.toNat < a.toNat := by omega
                simp [strLtAux, hab, hba] at hlm
                simp [strLtAux, hbc, hcb] at hmn
                simp [strLtAux, hac, hca]
                exact ih hlm hmn

theorem strLe_trans {s t u : String} (h1 : strLe s t = true) (h2 : strLe t u = true) :
    strLe s u = true := by
  simp only [strLe, Bool.not_eq_true', Bool.not_eq_true] at h1 h2 ⊢
  by_contra h
  have hus : strLtAux u.data s.data = true := by
    cases hx : strLtAux u.data s.data
    · exact absurd hx h
    · rfl
  rcases strLtAux_trichotomy t.data u.data with htu | hut | htu
  · have := strLtAux_trans htu hus
    simp [this] at h1
  · simp [hut] at h2
  · rw [htu] at h1
    simp [hus] at h1

theorem insertSorted_perm (le : α → α → Bool) (a : α) :
    ∀ l : List α, (insertSorted le a l).Perm (a :: l) := by
  intro l
  induction l with
  | nil => simp [insertSorted]
  | cons b l ih =>
    by_cases h : le a b
    · simp [insertSorted, h]
    · simp only [insertSorted, h, if_neg, Bool.false_eq_true, not_false_iff, ite_false]
      calc b :: insertSorted le a l
          |>.Perm (b :: a :: l) := List.Perm.cons b ih
        _ |>.Perm (a :: b :: l) := List.Perm.swap a b l

theorem stableSort_perm (le : α → α → Bool) :
    ∀ l : List α, (stableSort le l).Perm l := by
  intro l
  induction l with
  | nil => simp [stableSort]
  | cons a l ih =>
    calc insertSorted le a (stableSort le l)
        |>.Perm (a :: stableSort le l) := insertSorted_perm le a _
      _ |>.Perm (a :: l) := List.Perm.cons a ih

theorem mem_stableSort (le : α → α → Bool) (l : List α) (x : α) :
    x ∈ stableSort le l ↔ x ∈ l :=
  (stableSort_perm le l).mem_iff

theorem insertSorted_pairwise (le : α → α → Bool)
    (htot : ∀ a b, le a b = true ∨ le b a = true)
    (htrans : ∀ a b c, le a b = true → le b c = true → le a c = true) (a : α) :
    ∀ {l : List α}, l.Pairwise (fun x y => le x y = true) →
      (insertSorted le a l).Pairwise (fun x y => le x y = true) := by
  intro l
  induction l with
  | nil =>
    intro _
    simp [insertSorted]
  | cons b l ih =>
    intro hp
    rcases List.pairwise_cons.mp hp with ⟨hb, hl⟩
    by_cases h : le a b
    · have heq : insertSorted le a (b :: l) = a :: b :: l := by simp [insertSorted, h]
      rw [heq]
      refine List.pairwise_cons.mpr ⟨?_, hp⟩
      intro x hx
      rcases List.mem_cons.mp hx with rfl | hx
      · exact h
      · exact htrans a b x h (hb x hx)
    · have hba : le b a = true := by
        rcases htot a b with hab | hba
        · exact absurd hab (by simpa using h)
        · exact hba
      have heq : insertSorted le a (b :: l) = b :: insertSorted le a l := by
        simp [insertSorted, h]
      rw [heq]
      refine List.pairwise_cons.mpr ⟨?_, ih hl⟩
      intro x hx
      have hx' : x ∈ a :: l := (insertSorted_perm le a l).mem_iff.mp hx
      rcases List.mem_cons.mp hx' with rfl | hx'
      · exact hba
      · exact hb x hx'

theorem stableSort_pairwise (le : α → α → Bool)
    (htot : ∀ a b, le a b = true ∨ le b a = true)
    (htrans : ∀ a b c, le a b = true → le b c = true → le a c = true) :
    ∀ l : List α, (stableSort le l).Pairwise (fun x y => le x y = true) := by
  intro l
  induction l with
  | nil => simp [stableSort]
  | cons a l ih => exact insertSorted_pairwise le htot htrans a ih

theorem insertSorted_of_le_head (le : α → α → Bool) (a : α) :
    ∀ l : List α, (∀ b ∈ l, le a b = true) → insertSorted le a l = a :: l := by
  intro l h
  cases l with
  | nil => rfl
  | cons b l => simp [insertSorted, h b (List.mem_cons_self b l)]

theorem stableSort_eq_self (le : α → α → Bool) :
    ∀ {l : List α}, l.Pairwise (fun x y => le x y = true) → stableSort le l = l := by
  intro l
  induction l with
  | nil => intro _; rfl
  | cons a l ih =>
    intro hp
    rcases List.pairwise_cons.mp hp with ⟨ha, hl⟩
    have : stableSort le (a :: l) = insertSorted le a (stableSort le l) := rfl
    rw [this, ih hl, insertSorted_of_le_head le a l ha]

theorem filter_insertSorted_pos (le : α → α → Bool) (p : α → Bool) (a : α)
    (hpa : p a = true) (hkey : ∀ b, p b = true → le a b = true) :
    ∀ l : List α, (insertSorted le a l).filter p = a :: l.filter p := by
  intro l
  induction l with
  | nil => simp [insertSorted, hpa]
  | cons b l ih =>
    by_cases h : le a b
    · simp [insertSorted, h, List.filter, hpa]
    · have hpb : p b = false := by
        cases hx : p b
        · rfl
        · exact absurd (hkey b hx) (by simpa using h)
      simp [insertSorted, h, List.filter, hpb, ih]

theorem filter_insertSorted_neg (le : α → α → Bool) (p : α → Bool) (a : α)
    (hpa : p a = false) :
    ∀ l : List α, (insertSorted le a l).filter p = l.filter p := by
  intro l
  induction l with
  | nil => simp [insertSorted, hpa]
  | cons b l ih =>
    by_cases h : le a b
    · simp [insertSorted, h, List.filter, hpa]
    · cases hx : p b
      · simp [insertSorted, h, List.filter, hx, ih]
      · simp [insertSorted, h, List.filter, hx, ih]

/-- Stability of `stableSort` for a key-based comparison: the subsequence of
elements whose key equals any fixed value is preserved exactly. -/
theorem stableSort_stable (key : α → String) (k : String) :
    ∀ l : List α,
      (stableSort (fun x y => strLe (key x) (key y)) l).filter (fun x => key x == k)
        = l.filter (fun x => key x == k) := by
  intro l
  induction l with
  | nil => rfl
  | cons a l ih =>
    show (insertSorted _ a (stableSort _ l)).filter _ = _
    by_cases hpa : key a == k
    · rw [filter_insertSorted_pos _ _ a hpa]
      · rw [ih]; simp [List.filter, hpa]
      · intro b hb
        have h1 : key a = k := by simpa using hpa
        have h2 : key b = k := by simpa using hb
        rw [h1, h2]
        exact strLe_refl k
    · have hpa' : (key a == k) = false := by simpa using hpa
      rw [filter_insertSorted_neg _ _ a hpa', ih]
      simp [List.filter, hpa']

theorem pairwise_lt_get_le {ts : List Nat} (h : ts.Pairwise (· < ·))
    {i j : Nat} (hij : i ≤ j) (hj : j < ts.length) :
    ts.get ⟨i, lt_of_le_of_lt hij hj⟩ ≤ ts.get ⟨j, hj⟩ := by
  rcases Nat.eq_or_lt_of_le hij with rfl | hlt
  · exact le_refl _
  · exact le_of_lt (List.pairwise_iff_get.mp h ⟨i, lt_of_le_of_lt hij hj⟩ ⟨j, hj⟩ hlt)

theorem arrivalsUpTo_eq_length {ts : List Nat} {t : Nat} (h : ∀ a ∈ ts, a ≤ t) :
    arrivalsUpTo ts t = ts.length := by
  unfold arrivalsUpTo
  rw [List.filter_eq_self.mpr fun a ha => decide_eq_true (h a ha)]

theorem le_arrivalsUpTo {ts : List Nat} {t n : Nat} (hn : n ≤ ts.length)
    (h : ∀ (j : Nat) (hj : j < n), ts.get ⟨j, lt_of_lt_of_le hj hn⟩ ≤ t) :
    n ≤ arrivalsUpTo ts t := by
  have hall : ∀ a ∈ ts.take n, decide (a ≤ t) = true := by
    intro a ha
    obtain ⟨⟨j, hj⟩, rfl⟩ := List.mem_iff_get.mp ha
    have hjn : j < n := lt_of_lt_of_le hj (by rw [List.length_take]; exact inf_le_left)
    have hjlen : j < ts.length := lt_of_lt_of_le hjn hn
    have hget : (ts.take n).get ⟨j, hj⟩ = ts.get ⟨j, hjlen⟩ := (List.get_take ts hjlen hjn).symm
    rw [hget]
    exact decide_eq_true (h j hjn)
  have hfil : (ts.take n).filter (fun a => decide (a ≤ t)) = ts.take n :=
    List.filter_eq_self.mpr hall
  have hsub : ((ts.take n).filter fun a => decide (a ≤ t)).Sublist
      (ts.filter fun a => decide (a ≤ t)) :=
    List.Sublist.filter _ (List.take_sublist n ts)
  have hlen := hsub.length_le
  rw [hfil, List.length_take, inf_eq_left.mpr hn] at hlen
  exact hlen

/-- C1 counterexample: in a two-message burst whose first content carries
surrounding whitespace, exactly one timer still fires productively, but the
productive call's input is the stripped join `"a  b"`, not the ordered
space-concatenation `" a  b"` of the two contents — so the claimed "input is
the ordered concatenation of all k message contents" fails on this burst. -/
theorem debounce_input_not_plain_concatenation :
    timerProductive burstRunEx2 1 = true
    ∧ timerProductive burstRunEx2 0 = false
    ∧ (consolidate_temp_messages
        [⟨"user", " a ", "2024-01-01T00:00:00", "b1"⟩,
         ⟨"user", "b", "2024-01-01T00:00:05", "b2"⟩]).map (·.content)
        = some "a  b"
    ∧ pyJoin " " [" a ", "b"] = " a  b"
    ∧ ("a  b" : String) ≠ " a  b" := by
  decide

/-- C1 (amended): for a burst of `k` inbound messages for one user spaced
less than the debounce delay `D` apart, exactly one timer fires productively
— the last scheduled generation `k`, the one whose captured generation equals
the user's current generation counter at fire time — for every possible
delivery pattern of the cooperative cancel requests (all other timers are
killed or fail the generation comparison and are a no-op); and the productive
call's input, produced by `_consolidate_temp_messages` over the `k` recorded
pending messages, is the contents in received order with empty contents
dropped, joined by single spaces and stripped of surrounding whitespace, with
role and created_at taken from the earliest message. -/
theorem debounce_burst_exactly_one_productive_fire
    (r : DebounceRun) (k : Nat) (msgs : List TempMessage)
    (hk : r.ts.length = k) (hk0 : 0 < k)
    (hsorted : r.ts.Pairwise (· < ·))
    (hburst : ∀ i ti tn, r.ts.get? i = some ti → r.ts.get? (i + 1) = some tn →
      tn < ti + r.D)
    (hlen : msgs.length = k)
    (hmsorted : msgs.Pairwise fun a b => tempLe a b = true) :
    (∀ i, timerProductive r i = true ↔ i + 1 = k)
    ∧ ∃ m0, msgs.head? = some m0 ∧
        consolidate_temp_messages msgs
          = (if ((msgs.filter fun m => m.content ≠ "").map (·.content)) = []
             then none
             else some ⟨m0.role,
               pyStrip (pyJoin " "
                 ((msgs.filter fun m => m.content ≠ "").map (·.content))),
               m0.created_at⟩) := by
  constructor
  · intro i
    constructor
    · -- only the last generation can be productive
      intro hprod
      by_contra hne
      unfold timerProductive at hprod
      cases hget : r.ts.get? i with
      | none => rw [hget] at hprod; simp at hprod
      | some ti =>
        rw [hget] at hprod
        have hi : i < r.ts.length := (List.get?_eq_some.mp hget).1
        have hi1 : i + 1 < r.ts.length := by omega
        have hgn : r.ts.get? (i + 1) = some (r.ts.get ⟨i + 1, hi1⟩) := List.get?_eq_get hi1
        have htn := hburst i ti _ hget hgn
        by_cases hc : r.cancelOk i
        · have hkill : timerKilled r i = true := by
            unfold timerKilled
            rw [hget, hgn]
            have hle : r.ts.get ⟨i + 1, hi1⟩ ≤ ti + r.D := le_of_lt htn
            rw [List.get_eq_getElem] at hle
            simp [hc, hle]
          rw [hkill] at hprod
          simp at hprod
        · have hge : i + 2 ≤ arrivalsUpTo r.ts (ti + r.D) := by
            apply le_arrivalsUpTo (by omega)
            intro j hj
            have hji : j ≤ i + 1 := by omega
            have hle : r.ts.get ⟨j, _⟩ ≤ r.ts.get ⟨i + 1, hi1⟩ :=
              pairwise_lt_get_le hsorted hji hi1
            exact le_trans hle (le_of_lt htn)
          have hne2 : arrivalsUpTo r.ts (ti + r.D) ≠ i + 1 := by omega
          simp [hne2] at hprod
    · -- the last generation is always productive
      intro hik
      have hi : i < r.ts.length := by omega
      have hget : r.ts.get? i = some (r.ts.get ⟨i, hi⟩) := List.get?_eq_get hi
      have hnone : r.ts.get? (i + 1) = none := by
        rw [List.get?_eq_none]
        omega
      have hkill : timerKilled r i = false := by
        unfold timerKilled
        rw [hget, hnone]
      have hcount : arrivalsUpTo r.ts (r.ts.get ⟨i, hi⟩ + r.D) = i + 1 := by
        rw [arrivalsUpTo_eq_length, hk, hik]
        intro a ha
        obtain ⟨⟨j, hj⟩, rfl⟩ := List.mem_iff_get.mp ha
        have hji : j ≤ i := by omega
        exact le_trans (pairwise_lt_get_le hsorted hji hi) (Nat.le_add_right _ _)
      unfold timerProductive
      rw [hget]
      rw [List.get_eq_getElem] at hcount
      simp [hkill, hcount]
  · -- the productive call's input: consolidation of the k pending messages
    have hne : msgs ≠ [] := by
      intro h
      rw [h] at hlen
      simp at hlen
      omega
    obtain ⟨m0, rest, rfl⟩ := List.exists_cons_of_ne_nil hne
    refine ⟨m0, rfl, ?_⟩
    unfold consolidate_temp_messages
    have hss : stableSort tempLe (m0 :: rest) = m0 :: rest := stableSort_eq_self tempLe hmsorted
    rw [if_neg hne, hss]
    rfl

/-- Witness for the amended C1 at a concrete three-message burst. -/
theorem debounce_burst_exactly_one_productive_fire_witness :
    timerProductive burstRunEx 2 = true
    ∧ timerProductive burstRunEx 0 = false
    ∧ timerProductive burstRunEx 1 = false
    ∧ consolidate_temp_messages burstMsgsEx
        = some ⟨"user", "oi quero areia", "2024-01-01T00:00:00"⟩ := by
  have h := debounce_burst_exactly_one_productive_fire burstRunEx 3 burstMsgsEx
    rfl (by decide) (by decide)
    (by
      intro i ti tn h1 h2
      match i with
      | 0 =>
        simp [burstRunEx] at h1 h2 ⊢
        omega
      | 1 =>
        simp [burstRunEx] at h1 h2 ⊢
        omega
      | n + 2 =>
        simp [burstRunEx, List.get?] at h2)
    rfl (by decide)
  refine ⟨(h.1 2).mpr rfl, ?_, ?_, ?_⟩
  · have h0 : ¬ timerProductive burstRunEx 0 = true := fun hh => by
      have := (h.1 0).mp hh
      omega
    exact Bool.not_eq_true _ |>.mp h0
  · have h1 : ¬ timerProductive burstRunEx 1 = true := fun hh => by
      have := (h.1 1).mp hh
      omega
    exact Bool.not_eq_true _ |>.mp h1
  · obtain ⟨m0, hm0, hc⟩ := h.2
    have hm : (⟨"user", "oi", "2024-01-01T00:00:00", "a1"⟩ : TempMessage) = m0 := by
      simpa [burstMsgsEx] using hm0
    subst hm
    rw [hc]
    decide

theorem tempLe_total : ∀ a b : TempMessage, tempLe a b = true ∨ tempLe b a = true :=
  fun a b => strLe_total a.created_at b.created_at

theorem tempLe_trans : ∀ a b c : TempMessage,
    tempLe a b = true → tempLe b c = true → tempLe a c = true :=
  fun _ _ _ hab hbc => strLe_trans hab hbc

/-- C8 counterexample: consolidation does not return the plain space-join of
all contents.  A single message with surrounding whitespace is stripped
(`"a"`, not `" a "`), and a message with empty content is dropped from the
join (`"b"`, not `" b"`), while the claim's join of all contents would keep
both. -/
theorem consolidate_join_counterexample :
    consolidate_temp_messages [⟨"user", " a ", "t1", "i1"⟩]
        = some ⟨"user", "a", "t1"⟩
    ∧ pyJoin " " [" a "] = " a "
    ∧ consolidate_temp_messages
        [⟨"user", "", "t1", "i1"⟩, ⟨"user", "b", "t2", "i2"⟩]
        = some ⟨"user", "b", "t1"⟩
    ∧ pyJoin " " ["", "b"] = " b" := by
  decide

/-- C8 (amended): consolidation stable-sorts the pending messages by
`created_at` ascending (sorted output, a permutation of the input, preserving
the relative order of entries with equal keys), drops entries with empty
content, joins the remaining contents with a single space and strips
surrounding whitespace; role and created_at are taken from the first entry of
the sorted list, which has minimal `created_at`; it returns none when no
pending messages exist; and it is a pure function of its input (no deletion
or other mutation). -/
theorem consolidate_sorts_joins_and_takes_earliest (msgs : List TempMessage) :
    consolidate_temp_messages [] = none
    ∧ (stableSort tempLe msgs).Pairwise (fun a b => tempLe a b = true)
    ∧ (stableSort tempLe msgs).Perm msgs
    ∧ (∀ k, (stableSort tempLe msgs).filter (fun m => m.created_at == k)
          = msgs.filter (fun m => m.created_at == k))
    ∧ (∀ m0 rest, stableSort tempLe msgs = m0 :: rest →
        (∀ m ∈ msgs, strLe m0.created_at m.created_at = true)
        ∧ consolidate_temp_messages msgs
            = (if ((m0 :: rest).filter fun m => m.content ≠ "").map (·.content) = []
               then none
               else some ⟨m0.role,
                 pyStrip (pyJoin " "
                   (((m0 :: rest).filter fun m => m.content ≠ "").map (·.content))),
                 m0.created_at⟩)) := by
  refine ⟨rfl, stableSort_pairwise tempLe tempLe_total tempLe_trans msgs,
    stableSort_perm tempLe msgs, fun k => stableSort_stable (·.created_at) k msgs,
    fun m0 rest hsort => ⟨?_, ?_⟩⟩
  · intro m hm
    have hp := stableSort_pairwise tempLe tempLe_total tempLe_trans msgs
    rw [hsort] at hp
    have hm' : m ∈ m0 :: rest := by
      rw [← hsort]
      exact (mem_stableSort tempLe msgs m).mpr hm
    rcases List.mem_cons.mp hm' with rfl | hm'
    · exact strLe_refl _
    · exact (List.pairwise_cons.mp hp).1 m hm'
  · have hne : msgs ≠ [] := by
      intro h
      rw [h] at hsort
      simp [stableSort] at hsort
    unfold consolidate_temp_messages
    rw [if_neg hne, hsort]
    rfl

/-- Witness for the amended C8 at a concrete out-of-order pair. -/
theorem consolidate_sorts_joins_and_takes_earliest_witness :
    strLe "t1" "t2" = true
    ∧ consolidate_temp_messages consolidateMsgsEx = some ⟨"user", "a b", "t1"⟩ := by
  obtain ⟨-, -, -, -, h5⟩ := consolidate_sorts_joins_and_takes_earliest consolidateMsgsEx
  have h6 := h5 ⟨"user", "a", "t1", "i1"⟩ [⟨"user", "b", "t2", "i2"⟩] (by decide)
  refine ⟨?_, ?_⟩
  · simpa using h6.1 ⟨"user", "b", "t2", "i2"⟩ (by decide)
  · rw [h6.2]
    decide

/-- C2 counterexample: with reply generation succeeding but the durable
`save_message` failing (errors swallowed by `log_message`), the run completes,
the pending message is deleted, yet the reply was never logged — refuting
"deleted if and only if the consolidated reply was successfully generated and
logged". -/
theorem pending_deletion_counterexample :
    deletesPending
        (process_debounced_messages ⟨true, false, "resp"⟩
          [⟨"user", "hi", "t1", "id1"⟩]).1 = true
    ∧ logsReply
        (process_debounced_messages ⟨true, false, "resp"⟩
          [⟨"user", "hi", "t1", "id1"⟩]).1 = false
    ∧ (process_debounced_messages ⟨true, false, "resp"⟩
          [⟨"user", "hi", "t1", "id1"⟩]).2 = true := by
  decide

/-- C2 (amended): a pending message is deleted only if the consolidated reply
was successfully generated — if reply generation raises before the cleanup
step, the run aborts with no deletion (and no logging) — and on the success
path the whole batch is deleted; but deletion does not require the logging to
succeed: in `main.py` logging failures are swallowed and deletion still runs,
and in `base_chatbot.py` the deletion precedes the logging altogether. -/
theorem pending_deleted_only_after_generation (env : PipelineEnv)
    (temps : List TempMessage) :
    (env.genOk = false → (process_debounced_messages env temps).1 = [])
    ∧ (deletesPending (process_debounced_messages env temps).1 = true →
        env.genOk = true ∧ (process_debounced_messages env temps).2 = true)
    ∧ (∀ c, consolidate_temp_messages temps = some c → env.genOk = true →
        temps ≠ [] →
        Effect.deleteTemp ((temps.filter fun t => t.id ≠ "").map (·.id))
          ∈ (process_debounced_messages env temps).1)
    ∧ (∀ logOk cons resp,
        deletesPending (cleanup_and_save logOk temps cons resp).1
          = deletesPending (cleanup_and_save true temps cons resp).1) := by
  refine ⟨?_, ?_, ?_, ?_⟩
  · intro hgen
    unfold process_debounced_messages
    by_cases h : temps = [] <;> simp [h, hgen]
  · intro hdel
    unfold process_debounced_messages at hdel ⊢
    by_cases h : temps = []
    · simp [h, deletesPending] at hdel
    · by_cases hgen : env.genOk
      · simp [h, hgen]
      · simp [h, hgen, deletesPending] at hdel
  · intro c hc hgen hne
    unfold process_debounced_messages
    simp [hne, hgen, hc]
  · intro logOk cons resp
    unfold cleanup_and_save deletesPending
    cases logOk
    · cases cons <;> simp [List.any_append]
    · rfl

/-- Witness for the amended C2: a failed generation deletes nothing, and a
fully successful run deletes the batch. -/
theorem pending_deleted_only_after_generation_witness :
    (process_debounced_messages ⟨false, true, "resp"⟩
        [⟨"user", "hi", "t1", "id1"⟩]).1 = []
    ∧ Effect.deleteTemp ["id1"]
        ∈ (process_debounced_messages ⟨true, true, "resp"⟩
            [⟨"user", "hi", "t1", "id1"⟩]).1 := by
  constructor
  · exact (pending_deleted_only_after_generation ⟨false, true, "resp"⟩
      [⟨"user", "hi", "t1", "id1"⟩]).1 rfl
  · have h := (pending_deleted_only_after_generation ⟨true, true, "resp"⟩
      [⟨"user", "hi", "t1", "id1"⟩]).2.2.1
      ⟨"user", "hi", "t1"⟩ (by decide) rfl (by decide)
    simpa using h

theorem execOneTool_history (env : McpEnv) (tc : ToolCall) (s : LoopState) :
    (execOneTool env tc s).tool_call_history
      = s.tool_call_history ++ [callSignature tc.name tc.args] := by
  unfold execOneTool
  dsimp only
  split
  · split <;> rfl
  · rfl

theorem execOneTool_calls (env : McpEnv) (tc : ToolCall) (s : LoopState) :
    (execOneTool env tc s).calls = s.calls := by
  unfold execOneTool
  dsimp only
  split
  · split <;> rfl
  · rfl

theorem runTools_result (env : McpEnv) :
    ∀ (tcs : List ToolCall) (s : LoopState),
      (runTools env tcs s).1 = none ∨ (runTools env tcs s).1 = some fallbackLoopMsg := by
  intro tcs
  induction tcs with
  | nil => intro s; left; rfl
  | cons tc rest ih =>
    intro s
    unfold runTools
    by_cases h : callSignature tc.name tc.args ∈ lastThree s.tool_call_history
    · right; simp [h]
    · simp only [h, if_false]
      exact ih _

theorem runTools_calls (env : McpEnv) :
    ∀ (tcs : List ToolCall) (s : LoopState), (runTools env tcs s).2.calls = s.calls := by
  intro tcs
  induction tcs with
  | nil => intro s; rfl
  | cons tc rest ih =>
    intro s
    unfold runTools
    by_cases h : callSignature tc.name tc.args ∈ lastThree s.tool_call_history
    · simp [h]
    · simp only [h, if_false]
      rw [ih, execOneTool_calls]

theorem mcpLoop_calls_le (env : McpEnv) :
    ∀ (fuel : Nat) (s : LoopState), (mcpLoop env fuel s).2.calls ≤ s.calls + fuel := by
  intro fuel
  induction fuel with
  | zero => intro s; simp [mcpLoop]
  | succ n ih =>
    intro s
    unfold mcpLoop
    by_cases h : (env.script s.calls).tool_calls = []
    · simp [h]
    · simp only [h, if_false]
      cases hrun : runTools env (env.script s.calls).tool_calls { s with calls := s.calls + 1 } with
      | mk r s2 =>
        have hc : s2.calls = s.calls + 1 := by
          have := runTools_calls env (env.script s.calls).tool_calls
            { s with calls := s.calls + 1 }
          rw [hrun] at this
          exact this
        cases r with
        | none =>
          simp only
          have := ih s2
          omega
        | some msg =>
          simp only
          omega

theorem mcpLoop_outcomes (env : McpEnv) :
    ∀ (fuel : Nat) (s : LoopState),
      (mcpLoop env fuel s).1 = capExhaustedMsg
      ∨ (mcpLoop env fuel s).1 = fallbackLoopMsg
      ∨ ∃ i, s.calls ≤ i ∧ i < s.calls + fuel ∧ (env.script i).tool_calls = []
          ∧ (mcpLoop env fuel s).1 = pyOrElse (env.script i).content emptyAnswerMsg := by
  intro fuel
  induction fuel with
  | zero => intro s; left; rfl
  | succ n ih =>
    intro s
    unfold mcpLoop
    by_cases h : (env.script s.calls).tool_calls = []
    · right; right
      exact ⟨s.calls, le_refl _, by omega, h, by simp [h]⟩
    · simp only [h, if_false]
      cases hrun : runTools env (env.script s.calls).tool_calls { s with calls := s.calls + 1 } with
      | mk r s2 =>
        have hc : s2.calls = s.calls + 1 := by
          have := runTools_calls env (env.script s.calls).tool_calls
            { s with calls := s.calls + 1 }
          rw [hrun] at this
          exact this
        cases r with
        | some msg =>
          have hr := runTools_result env (env.script s.calls).tool_calls
            { s with calls := s.calls + 1 }
          rw [hrun] at hr
          rcases hr with hr | hr
          · simp at hr
          · right; left
            simp only
            simpa using hr
        | none =>
          rcases ih s2 with hcap | hfall | ⟨i, hi1, hi2, hi3, hi4⟩
          · left; simpa using hcap
          · right; left; simpa using hfall
          · right; right
            exact ⟨i, by omega, by omega, hi3, by simpa using hi4⟩

/-- C3: for every scripted sequence of provider responses and tool results,
the orchestration loop makes at most 10 provider calls and always terminates
with either a model answer (the content of some scripted response carrying no
tool calls, defaulted when empty), the loop-detection fallback, or the
cap-exhaustion failure message. -/
theorem mcp_loop_bounded_and_terminates (env : McpEnv) :
    (process_with_mcp env).2.calls ≤ 10
    ∧ ((process_with_mcp env).1 = capExhaustedMsg
       ∨ (process_with_mcp env).1 = fallbackLoopMsg
       ∨ ∃ i, i < 10 ∧ (env.script i).tool_calls = []
           ∧ (process_with_mcp env).1 = pyOrElse (env.script i).content emptyAnswerMsg) := by
  constructor
  · have := mcpLoop_calls_le env 10 initLoopState
    simpa [process_with_mcp, initLoopState] using this
  · have := mcpLoop_outcomes env 10 initLoopState
    rcases this with h | h | ⟨i, h1, h2, h3, h4⟩
    · left; exact h
    · right; left; exact h
    · right; right
      refine ⟨i, ?_, h3, h4⟩
      simpa [initLoopState] using h2

theorem runTools_cons (env : McpEnv) (tc : ToolCall) (rest : List ToolCall) (s : LoopState) :
    runTools env (tc :: rest) s
      = if callSignature tc.name tc.args ∈ lastThree s.tool_call_history
        then (some fallbackLoopMsg, s)
        else runTools env rest (execOneTool env tc s) := rfl

theorem self_mem_lastThree (l : List String) (x : String) : x ∈ lastThree (l ++ [x]) := by
  unfold lastThree
  by_cases h : (l ++ [x]).length ≤ 3
  · have h0 : (l ++ [x]).length - 3 = 0 := by omega
    rw [h0, List.drop_zero]
    simp
  · have hm : (l ++ [x]).length - 3 ≤ l.length := by
      simp only [List.length_append, List.length_singleton]
      omega
    rw [List.drop_append_of_le_length hm]
    simp

/-- C4: for each requested tool call the loop computes the canonical
signature (tool name plus the JSON arguments rendered with sorted keys,
`callSignature`); if that exact signature already occurs among the last 3
executed calls of this turn (`lastThree` of the history), the loop
immediately returns the fixed "please rephrase" fallback and leaves the state
untouched — in particular the repeated tool is not executed. -/
theorem mcp_loop_detection_aborts (env : McpEnv) (tc : ToolCall) (rest : List ToolCall)
    (s : LoopState)
    (h : callSignature tc.name tc.args ∈ lastThree s.tool_call_history) :
    runTools env (tc :: rest) s = (some fallbackLoopMsg, s) := by
  rw [runTools_cons, if_pos h]

/-- Witness for C4 at a concrete repeated signature. -/
theorem mcp_loop_detection_aborts_witness :
    runTools quietEnvEx [⟨"c2", "get_products", [("query", "areia")]⟩] loopDetectStateEx
      = (some fallbackLoopMsg, loopDetectStateEx) :=
  mcp_loop_detection_aborts quietEnvEx ⟨"c2", "get_products", [("query", "areia")]⟩
    [] loopDetectStateEx (by decide)

/-- C5 counterexample: with the same (tool name, arguments) pair requested 3
times consecutively within one turn, the loop aborts already while processing
the SECOND request: exactly one call is executed (one history entry) before
the fixed fallback is returned, contradicting "aborts exactly on the 3rd
repeat (not earlier)", which would require two executions first. -/
theorem mcp_repeat_aborts_on_second_counterexample :
    (process_with_mcp repeatEnvEx).1 = fallbackLoopMsg
    ∧ (process_with_mcp repeatEnvEx).2.tool_call_history
        = [callSignature "get_products" [("query", "areia")]] := by
  decide

/-- C5 (amended): if the same (tool name, arguments) pair is requested twice
in a row within one turn (the first occurrence itself not being a repeat),
the loop executes the first occurrence and aborts on the second, returning
the fixed fallback message; so a pair requested 3 times consecutively aborts
on its 2nd occurrence. -/
theorem mcp_aborts_on_second_consecutive_repeat (env : McpEnv)
    (tc tc' : ToolCall) (rest : List ToolCall) (s : LoopState)
    (hsig : callSignature tc'.name tc'.args = callSignature tc.name tc.args)
    (hnew : callSignature tc.name tc.args ∉ lastThree s.tool_call_history) :
    runTools env (tc :: tc' :: rest) s = (some fallbackLoopMsg, execOneTool env tc s)
    ∧ (execOneTool env tc s).tool_call_history
        = s.tool_call_history ++ [callSignature tc.name tc.args] := by
  have hmem : callSignature tc'.name tc'.args
      ∈ lastThree (execOneTool env tc s).tool_call_history := by
    rw [execOneTool_history, hsig]
    exact self_mem_lastThree _ _
  exact ⟨by rw [runTools_cons, if_neg hnew, runTools_cons, if_pos hmem],
    execOneTool_history env tc s⟩

/-- Witness for the amended C5 at a concrete repeated pair. -/
theorem mcp_aborts_on_second_consecutive_repeat_witness :
    runTools repeatEnvEx [repeatedCallEx, repeatedCallEx] initLoopState
      = (some fallbackLoopMsg, execOneTool repeatEnvEx repeatedCallEx initLoopState)
    ∧ (execOneTool repeatEnvEx repeatedCallEx initLoopState).tool_call_history
        = [callSignature "get_products" [("query", "areia")]] := by
  have h := mcp_aborts_on_second_consecutive_repeat repeatEnvEx
    repeatedCallEx repeatedCallEx [] initLoopState rfl (by decide)
  refine ⟨h.1, ?_⟩
  rw [h.2]
  decide

theorem execOneTool_sameButNotify
    (script : Nat → ProviderResponse) (execT : String → List (String × String) → ToolResult)
    (n1 n2 : Nat → Bool) (tc : ToolCall) {s s' : LoopState}
    (h : sameButNotify s s') :
    sameButNotify (execOneTool ⟨script, execT, n1⟩ tc s)
      (execOneTool ⟨script, execT, n2⟩ tc s') := by
  obtain ⟨hh, hc, hn⟩ := h
  unfold execOneTool
  dsimp only
  split
  · split
    · refine ⟨by simp [hh], by simp [hc], ?_⟩
      simp only [List.map_append, List.map_cons, List.map_nil]
      rw [hn]
    · exact ⟨by simp [hh], by simp [hc], by simpa using hn⟩
  · exact ⟨by simp [hh], by simp [hc], by simpa using hn⟩

theorem runTools_sameButNotify
    (script : Nat → ProviderResponse) (execT : String → List (String × String) → ToolResult)
    (n1 n2 : Nat → Bool) :
    ∀ (tcs : List ToolCall) {s s' : LoopState}, sameButNotify s s' →
      (runTools ⟨script, execT, n1⟩ tcs s).1 = (runTools ⟨script, execT, n2⟩ tcs s').1
      ∧ sameButNotify (runTools ⟨script, execT, n1⟩ tcs s).2
          (runTools ⟨script, execT, n2⟩ tcs s').2 := by
  intro tcs
  induction tcs with
  | nil => intro s s' h; exact ⟨rfl, h⟩
  | cons tc rest ih =>
    intro s s' h
    rw [runTools_cons, runTools_cons]
    rw [h.1]
    by_cases hm : callSignature tc.name tc.args ∈ lastThree s'.tool_call_history
    · rw [if_pos hm, if_pos hm]
      exact ⟨rfl, h⟩
    · rw [if_neg hm, if_neg hm]
      exact ih (execOneTool_sameButNotify script execT n1 n2 tc h)

theorem mcpLoop_sameButNotify
    (script : Nat → ProviderResponse) (execT : String → List (String × String) → ToolResult)
    (n1 n2 : Nat → Bool) :
    ∀ (fuel : Nat) {s s' : LoopState}, sameButNotify s s' →
      (mcpLoop ⟨script, execT, n1⟩ fuel s).1 = (mcpLoop ⟨script, execT, n2⟩ fuel s').1
      ∧ sameButNotify (mcpLoop ⟨script, execT, n1⟩ fuel s).2
          (mcpLoop ⟨script, execT, n2⟩ fuel s').2 := by
  intro fuel
  induction fuel with
  | zero => intro s s' h; exact ⟨rfl, h⟩
  | succ n ih =>
    intro s s' h
    unfold mcpLoop
    dsimp only
    rw [h.2.1]
    by_cases he : (script s'.calls).tool_calls = []
    · rw [if_pos he, if_pos he]
      exact ⟨rfl, ⟨by simpa using h.1, by simp [h.2.1], by simpa using h.2.2⟩⟩
    · rw [if_neg he, if_neg he]
      have hs1 : sameButNotify ({ s with calls := s'.calls + 1 } : LoopState)
          ({ s' with calls := s'.calls + 1 } : LoopState) :=
        ⟨by simpa using h.1, rfl, by simpa using h.2.2⟩
      have hrun := runTools_sameButNotify script execT n1 n2
        (script s'.calls).tool_calls hs1
      cases hr1 : runTools ⟨script, execT, n1⟩ (script s'.calls).tool_calls
          { s with calls := s'.calls + 1 } with
      | mk r1 t1 =>
        cases hr2 : runTools ⟨script, execT, n2⟩ (script s'.calls).tool_calls
            { s' with calls := s'.calls + 1 } with
        | mk r2 t2 =>
          rw [hr1, hr2] at hrun
          cases r1 with
          | some m1 =>
            cases r2 with
            | some m2 =>
              have hm12 : m1 = m2 := by simpa using hrun.1
              subst hm12
              exact ⟨rfl, hrun.2⟩
            | none => simp at hrun
          | none =>
            cases r2 with
            | some m2 => simp at hrun
            | none =>
              have := ih hrun.2
              simpa using this

/-- C9: the primary turn is independent of the out-of-band store
notification's success — for the same provider script and tool results, a
failing notification send (caught at the call site) leaves the returned
customer-facing reply, the executed-call history and the number of provider
rounds unchanged, and the very same notification attempts are made. -/
theorem finalize_notification_failure_never_fails_turn
    (script : Nat → ProviderResponse) (execT : String → List (String × String) → ToolResult)
    (n1 n2 : Nat → Bool) :
    (process_with_mcp ⟨script, execT, n1⟩).1 = (process_with_mcp ⟨script, execT, n2⟩).1
    ∧ (process_with_mcp ⟨script, execT, n1⟩).2.tool_call_history
        = (process_with_mcp ⟨script, execT, n2⟩).2.tool_call_history
    ∧ (process_with_mcp ⟨script, execT, n1⟩).2.calls
        = (process_with_mcp ⟨script, execT, n2⟩).2.calls
    ∧ (process_with_mcp ⟨script, execT, n1⟩).2.notifies.map (fun x => (x.1, x.2.1))
        = (process_with_mcp ⟨script, execT, n2⟩).2.notifies.map (fun x => (x.1, x.2.1)) := by
  have h := @mcpLoop_sameButNotify script execT n1 n2 10
    initLoopState initLoopState ⟨rfl, rfl, rfl⟩
  exact ⟨h.1, h.2.1, h.2.2.1, h.2.2.2⟩

/-- C6: for every inbound text handled with stored state, exactly one branch
of the menu/clarification state machine fires, and which family fires is a
function of the stored awaiting flags alone, in the fixed priority order
clarification → store selection → purchase confirmation → top-level menu;
in particular, while the awaiting-clarification flag is set every text
(digits included) goes to the clarification handler and never to a menu
option, and with the flag clear no text is ever interpreted as a
clarification answer. -/
theorem interactive_branch_priority (conv : List (String × UserState))
    (user_id text : String) (st : UserState)
    (hlook : conv.lookup user_id = some st) :
    famOfAction (handle_interactive_option conv user_id text) = branchOfState st
    ∧ (st.awaiting_clarification = true →
        handle_interactive_option conv user_id text = .clarification (pyStrip text))
    ∧ (st.awaiting_clarification = false →
        ∀ t', handle_interactive_option conv user_id text ≠ .clarification t') := by
  refine ⟨?_, ?_, ?_⟩
  · unfold handle_interactive_option branchOfState
    rw [hlook]
    by_cases h1 : st.awaiting_clarification
    · simp [h1, famOfAction]
    · by_cases h2 : st.awaiting_store_selection
      · simp [h1, h2, famOfAction]
      · by_cases h3 : truthyStr? st.awaiting_purchase_confirmation
        · by_cases h4 : pyStrip text = "1" <;> by_cases h5 : pyStrip text = "0" <;>
            simp [h1, h2, h3, h4, h5, famOfAction]
        · by_cases m1 : text = "1" <;> by_cases m2 : text = "2" <;>
            by_cases m3 : text = "3" <;> by_cases m0 : text = "0" <;>
            simp [h1, h2, h3, m1, m2, m3, m0, famOfAction]
  · intro h1
    unfold handle_interactive_option
    rw [hlook]
    simp [h1]
  · intro h1 t'
    unfold handle_interactive_option
    rw [hlook]
    by_cases h2 : st.awaiting_store_selection
    · simp [h1, h2]
    · by_cases h3 : truthyStr? st.awaiting_purchase_confirmation
      · by_cases h4 : pyStrip text = "1" <;> by_cases h5 : pyStrip text = "0" <;>
          simp [h1, h2, h3, h4, h5]
      · by_cases m1 : text = "1" <;> by_cases m2 : text = "2" <;>
          by_cases m3 : text = "3" <;> by_cases m0 : text = "0" <;>
          simp [h1, h2, h3, m1, m2, m3, m0]

/-- Witness for C6: with the clarification flag set the digit "1" goes to the
clarification handler, and with it clear "1" is the menu finalize option,
never a clarification answer. -/
theorem interactive_branch_priority_witness :
    handle_interactive_option [("u1", clarifyStateEx)] "u1" "1"
      = InteractiveAction.clarification "1"
    ∧ famOfAction (handle_interactive_option [("u1", menuStateEx)] "u1" "1")
      = BranchFam.menu
    ∧ (∀ t', handle_interactive_option [("u1", menuStateEx)] "u1" "1"
        ≠ InteractiveAction.clarification t') := by
  have h1 := interactive_branch_priority [("u1", clarifyStateEx)] "u1" "1"
    clarifyStateEx rfl
  have h2 := interactive_branch_priority [("u1", menuStateEx)] "u1" "1"
    menuStateEx rfl
  refine ⟨?_, ?_, h2.2.2 rfl⟩
  · have := h1.2.1 rfl
    rw [this]
    decide
  · rw [h2.1]
    decide

/-- C7: the "show all stores" listing is ascending by total price (sorted
output that is a permutation of the stored totals); a digit `d` is read as
the 1-based index into that ascending list while "0" returns to the menu;
and with no store explicitly selected, "finalize purchase" always targets the
head of the ascending list, a store of minimal total. -/
theorem store_menu_uses_ascending_totals (st : UserState) (b : Bool)
    (hsel : st.selected_store_data = none) (hne : st.store_totals ≠ []) :
    (sortedStores st.store_totals).Pairwise (fun p q => p.2.total ≤ q.2.total)
    ∧ (sortedStores st.store_totals).Perm st.store_totals
    ∧ allStoresOrder st.store_totals = (sortedStores st.store_totals).map (·.1)
    ∧ handle_store_selection st "0" = .backToMenu
    ∧ (∀ sel v pr, pyInt? sel = some v → sel ≠ "0" → 1 ≤ v →
        (sortedStores st.store_totals).get? (v - 1).toNat = some pr →
        handle_store_selection st sel = .selected pr)
    ∧ (∃ pr, (sortedStores st.store_totals).head? = some pr
        ∧ handle_finalize_purchase st b
            = .finalized (some pr.1) pr.2 (truthyStr? pr.2.store_info.phone && b)
        ∧ ∀ q ∈ st.store_totals, pr.2.total ≤ q.2.total) := by
  have htot : ∀ p q : String × StoreData,
      decide (p.2.total ≤ q.2.total) = true ∨ decide (q.2.total ≤ p.2.total) = true := by
    intro p q
    rcases le_total p.2.total q.2.total with h | h
    · left; exact decide_eq_true h
    · right; exact decide_eq_true h
  have htrans : ∀ p q r : String × StoreData,
      decide (p.2.total ≤ q.2.total) = true → decide (q.2.total ≤ r.2.total) = true →
      decide (p.2.total ≤ r.2.total) = true := by
    intro p q r h1 h2
    exact decide_eq_true (le_trans (of_decide_eq_true h1) (of_decide_eq_true h2))
  have hpw : (sortedStores st.store_totals).Pairwise
      (fun p q => p.2.total ≤ q.2.total) := by
    have := stableSort_pairwise (fun a b : String × StoreData =>
      decide (a.2.total ≤ b.2.total)) htot htrans st.store_totals
    exact this.imp fun h => of_decide_eq_true h
  have hperm : (sortedStores st.store_totals).Perm st.store_totals :=
    stableSort_perm _ st.store_totals
  refine ⟨hpw, hperm, rfl, ?_, ?_, ?_⟩
  · unfold handle_store_selection
    simp
  · intro sel v pr hparse h0 hv hidx
    unfold handle_store_selection
    rw [if_neg h0, hparse]
    have hlt : (v - 1).toNat < (sortedStores st.store_totals).length :=
      (List.get?_eq_some.mp hidx).1
    have hrange : 0 ≤ v - 1 ∧ v - 1 < ((sortedStores st.store_totals).length : Int) := by
      omega
    dsimp only
    rw [if_pos hrange, hidx]
  · have hsne : sortedStores st.store_totals ≠ [] := by
      intro h
      rw [h] at hperm
      exact hne (List.Perm.eq_nil hperm.symm)
    obtain ⟨pr, rest, hcons⟩ := List.exists_cons_of_ne_nil hsne
    refine ⟨pr, by rw [hcons]; rfl, ?_, ?_⟩
    · unfold handle_finalize_purchase
      rw [hsel, hcons]
      rfl
    · intro q hq
      have hq' : q ∈ sortedStores st.store_totals := hperm.mem_iff.mpr hq
      rw [hcons] at hq' hpw
      rcases List.mem_cons.mp hq' with rfl | hq'
      · exact le_refl _
      · exact (List.pairwise_cons.mp hpw).1 q hq'

/-- Witness for C7 on the A=100, B=90, C=120 example: the listing order is
B, A, C; digit "2" selects the 2nd-cheapest store A; "0" goes back to the
menu; and finalize targets the cheapest store B. -/
theorem store_menu_uses_ascending_totals_witness :
    allStoresOrder totalsABC = ["B", "A", "C"]
    ∧ handle_store_selection stateABC "2"
        = .selected ("A", ⟨[], 100, ⟨"A", some "5511111111"⟩⟩)
    ∧ handle_store_selection stateABC "0" = .backToMenu
    ∧ handle_finalize_purchase stateABC true
        = .finalized (some "B") ⟨[], 90, ⟨"B", some "5522222222"⟩⟩ true := by
  have h := store_menu_uses_ascending_totals stateABC true rfl (by decide)
  refine ⟨by decide, ?_, h.2.2.2.1, ?_⟩
  · exact h.2.2.2.2.1 "2" 2 ("A", ⟨[], 100, ⟨"A", some "5511111111"⟩⟩)
      (by decide) (by decide) (by decide) (by decide)
  · obtain ⟨pr, hhead, hfin, -⟩ := h.2.2.2.2.2
    have hpr : pr = ("B", ⟨[], 90, ⟨"B", some "5522222222"⟩⟩) := by
      have : (sortedStores stateABC.store_totals).head?
          = some ("B", ⟨[], 90, ⟨"B", some "5522222222"⟩⟩) := by decide
      rw [this] at hhead
      exact (Option.some_inj.mp hhead).symm
    rw [hfin, hpr]
    decide

/-- C10: a user with no entry in the conversation-state map never gets an
interactive response — for every inbound text, including the bare digits "0"
through "3", the handler returns `None` and `process_message` falls through
to the debounced AI pipeline. -/
theorem no_state_always_falls_through (conv : List (String × UserState))
    (user_id : String) (hnone : conv.lookup user_id = none) :
    ∀ text, process_message_route conv user_id text = .debouncePipeline := by
  intro text
  unfold process_message_route handle_interactive_option
  rw [hnone]

/-- Witness for C10: the empty map routes the digits 0-3 to the pipeline. -/
theorem no_state_always_falls_through_witness :
    process_message_route [] "5511999990000" "0" = .debouncePipeline
    ∧ process_message_route [] "5511999990000" "1" = .debouncePipeline
    ∧ process_message_route [] "5511999990000" "2" = .debouncePipeline
    ∧ process_message_route [] "5511999990000" "3" = .debouncePipeline := by
  have h := no_state_always_falls_through [] "5511999990000" rfl
  exact ⟨h "0", h "1", h "2", h "3"⟩

end Radar
